import Mathlib

/-!
Shallow embedding of the fixture programs of the llm-code-reviewer
repository (synthetic C++ files seeded with bugs), and proofs settling
the frozen claims about them.

Conventions of the embedding:
* C++ `std::vector<T>` becomes `List T`; element access through an index
  returns `Option` (`List.get?` / `setChecked`), so an out-of-bounds
  access is the `none` branch, never a silent default.
* `double` becomes `ℚ` (exact values; the claims settled here depend only
  on control flow and on which divisor is zero, not on rounding).
* `int` / `size_t` become `Int` / `Nat`; no claim here involves wrap-around,
  all counters stay far below 2^31.
* division is guarded: `if divisor = 0 then none else some (a / b)`.
* a C++ method that mutates its object becomes a function from the state
  structure to (result × new state), or to `Option` of those when the body
  can access out of bounds.
* the seeded `for (i = 0; i <= n; ++i)` loops are embedded with an explicit
  fuel argument strictly larger than the number of iterations the C++ loop
  would attempt before its out-of-bounds access; the theorems below never
  depend on fuel exhaustion (the `none`s they establish come from the
  checked accesses).
-/

/-- Checked update: `l.set i v` when `i` is in bounds, `none` otherwise
(a C++ `vec[i] = v` with `i` possibly out of range). -/
def setChecked {α : Type} (l : List α) (i : Nat) (v : α) : Option (List α) :=
  if i < l.length then some (l.set i v) else none

/-- The empty C++ string literal. -/
def emptyString : String := ""

namespace VerilatorStyle

/-!
Classes of `verilator_style_bugs.cpp` (cited by the claims at
`src/validation/test_cases/verilator_style_bugs.cpp`, a path absent from
`src/`).  The spec describes its contents — an inclusive-bound loop that
reads one element past the end of a buffer, a boolean range check using OR
instead of AND, a getter that increments a counter as a side effect — and
the file `src/docs/research/validation/test_cases/verilator_style_bugs_clean.cpp`
present in `src/` carries exactly these class definitions (`VNumber`,
`VOptions`, `VStatistics`, `VValidator`, `VCleanExample`); the embeddings
below are translated from that file's text, and they double as the
embedding of the `_clean` file itself for claim C4.
-/

/-- State of `VNumber`: `std::vector<uint32_t> m_value; int m_width;`
(`verilator_style_bugs_clean.cpp` lines 11–13). Word values stay below
2^32; `clearAllBits` only writes `0`, so no wrap-around arises. -/
structure VNumber where
  m_value : List Nat
  m_width : Int
deriving Repr, DecidableEq

/-- Loop body of `VNumber::clearAllBits`:
`for (size_t i = 0; i <= m_value.size(); i++) m_value[i] = 0;`
(lines 29–31).  The inclusive bound `i <= size` is kept; each write is a
checked access. -/
def clearLoop : Nat → List Nat → Nat → Option (List Nat)
  | 0, l, _ => some l
  | fuel + 1, l, i =>
    if i ≤ l.length then
      match setChecked l i 0 with
      | some l2 => clearLoop fuel l2 (i + 1)
      | none => none
    else some l

/-- `VNumber::clearAllBits` (lines 28–32): runs the inclusive-bound loop
over `m_value`; fuel `m_value.size() + 2` exceeds the iteration count. -/
def VNumber.clearAllBits (n : VNumber) : Option VNumber :=
  match clearLoop (n.m_value.length + 2) n.m_value 0 with
  | some l => some { n with m_value := l }
  | none => none

/-- `VNumber::isValidBitRange` (lines 34–36):
`return bit >= 0 || bit < m_width;` — the seeded OR. -/
def VNumber.isValidBitRange (n : VNumber) (bit : Int) : Bool :=
  bit ≥ 0 || bit < n.m_width

/-- State of `VOptions`: `std::map<std::string,std::string> m_options;
mutable int m_accessCount;` (lines 60–62). The map is an association list
with unique keys in the C++ object; lookup is by key equality. -/
structure VOptions where
  m_options : List (String × String)
  m_accessCount : Nat
deriving Repr, DecidableEq

/-- `VOptions::getOption` (lines 65–70): increments `m_accessCount`, then
returns the mapped value when the key is present and `""` otherwise. -/
def VOptions.getOption (o : VOptions) (key : String) : String × VOptions :=
  let o2 : VOptions := { o with m_accessCount := o.m_accessCount + 1 }
  match o.m_options.lookup key with
  | some v => (v, o2)
  | none => (emptyString, o2)

/-- `VOptions::setOption` (lines 72–74): `m_options[key] = value`. -/
def VOptions.setOption (o : VOptions) (key value : String) : VOptions :=
  { o with m_options := (key, value) :: o.m_options.eraseP (fun p => p.1 == key) }

/-- State of `VStatistics`: `std::vector<double> m_samples;` (line 79). -/
structure VStatistics where
  m_samples : List ℚ
deriving Repr, DecidableEq

/-- The default-constructed `VStatistics`: an empty sample vector. -/
def VStatistics.init : VStatistics := ⟨[]⟩

/-- `VStatistics::addSample` (lines 82–84). -/
def VStatistics.addSample (s : VStatistics) (v : ℚ) : VStatistics :=
  ⟨s.m_samples ++ [v]⟩

/-- `VStatistics::getAverage` (lines 86–92): sums the samples and divides
by `m_samples.size()` with no empty check; the division is guarded, so the
state with no samples lands in the `none` branch. -/
def VStatistics.getAverage (s : VStatistics) : Option ℚ :=
  let sum := s.m_samples.foldl (· + ·) 0
  if s.m_samples.length = 0 then none else some (sum / s.m_samples.length)

/-- `VStatistics::getPercentile` (lines 94–96): `return n / total * 100;`
over C++ `int`, i.e. truncating division (`Int.tdiv`) applied before the
multiplication; `total = 0` is the division-by-zero branch. -/
def VStatistics.getPercentile (n total : Int) : Option Int :=
  if total = 0 then none else some (Int.tdiv n total * 100)

/-- `VValidator::isValidRange` (lines 102–104):
`return value >= min || value <= max;` — the seeded OR. -/
def VValidator.isValidRange (value lo hi : Int) : Bool :=
  value ≥ lo || value ≤ hi

/-- State of `VCleanExample`: `std::vector<int> m_data;` (line 113). -/
structure VCleanExample where
  m_data : List Int
deriving Repr, DecidableEq

/-- `VCleanExample::getAverage` (lines 120–127): returns `0.0` on the
empty vector, otherwise the sum divided by the (now nonzero) size. -/
def VCleanExample.getAverage (c : VCleanExample) : ℚ :=
  if c.m_data.length = 0 then 0
  else (c.m_data.foldl (· + ·) 0 : Int) / (c.m_data.length : ℚ)

/-- `VCleanExample::isValidIndex` (lines 129–131): `idx < m_data.size()`. -/
def VCleanExample.isValidIndex (c : VCleanExample) (idx : Nat) : Bool :=
  idx < c.m_data.length

end VerilatorStyle

namespace Module1

/-!
`src/docs/research/test-data/synthetic-pr/module_1.cpp`.
-/

/-- Loop of `processArray` (lines 45–47):
`for (int i = 0; i <= size; i++) std::cout << arr[i] << std::endl;`
The result collects the printed values; a read past the end is `none`. -/
def printLoop : Nat → List Int → Nat → Nat → List Int → Option (List Int)
  | 0, _, _, _, acc => some acc
  | fuel + 1, arr, i, size, acc =>
    if i ≤ size then
      match arr.get? i with
      | some v => printLoop fuel arr (i + 1) size (acc ++ [v])
      | none => none
    else some acc

/-- `processArray(arr, size)` (lines 44–48), for a nonnegative `size`;
fuel `size + 2` exceeds the iteration count of the seeded loop. -/
def processArray (arr : List Int) (size : Nat) : Option (List Int) :=
  printLoop (size + 2) arr 0 size []

/-- `divide(a, b)` (lines 51–53): `static_cast<double>(a) / b` with no
zero guard; guarded here, so `b = 0` is the `none` branch. -/
def divide (a b : Int) : Option ℚ :=
  if b = 0 then none else some ((a : ℚ) / (b : ℚ))

end Module1

namespace PrSim

/-!
`src/validation/test_cases/pr_simulation.cpp`, namespace `V3Signal`.
-/

/-- State of `DelayCalculator` (lines 19–22): the delay vector and the
signal-name-to-index map (an association list looked up by key equality;
`m_totalDelay` is kept for completeness). -/
structure DelayCalculator where
  m_delays : List ℚ
  m_signalMap : List (String × Nat)
  m_totalDelay : ℚ
deriving Repr, DecidableEq

/-- Loop of `DelayCalculator::getCriticalPathDelay` (lines 48–53):
`for (size_t i = 0; i <= path.size(); ++i)` reads `path[i]`, looks the
name up in `m_signalMap` and, on a hit, takes the max with
`m_delays[it->second]`; both vector reads are checked. -/
def critLoop : Nat → DelayCalculator → List String → Nat → ℚ → Option ℚ
  | 0, _, _, _, acc => some acc
  | fuel + 1, dc, path, i, acc =>
    if i ≤ path.length then
      match path.get? i with
      | none => none
      | some sig =>
        match dc.m_signalMap.lookup sig with
        | none => critLoop fuel dc path (i + 1) acc
        | some idx =>
          match dc.m_delays.get? idx with
          | none => none
          | some d => critLoop fuel dc path (i + 1) (max acc d)
    else some acc

/-- `DelayCalculator::getCriticalPathDelay` (lines 47–56): runs the
inclusive-bound loop with `maxDelay` starting at `0.0`; fuel
`path.size() + 2` exceeds the iteration count. -/
def DelayCalculator.getCriticalPathDelay (dc : DelayCalculator) (path : List String) : Option ℚ :=
  critLoop (path.length + 2) dc path 0 0

/-- State of `EdgeDetector` (lines 60–63). -/
structure EdgeDetector where
  m_lastValues : List Bool
  m_currentValues : List Bool
  m_edgeCount : Nat
deriving Repr, DecidableEq

/-- `EdgeDetector::EdgeDetector(numSignals)` (lines 66–69): both value
vectors sized `numSignals`, all `false`. -/
def EdgeDetector.init (numSignals : Nat) : EdgeDetector :=
  ⟨List.replicate numSignals false, List.replicate numSignals false, 0⟩

/-- `EdgeDetector::hasRisingEdge` (lines 78–82): increments `m_edgeCount`
first, returns `false` for an out-of-range index, otherwise reads
`m_lastValues[index]` and `m_currentValues[index]` (the second read is
checked: it is out of bounds when `m_currentValues` is shorter). -/
def EdgeDetector.hasRisingEdge (e : EdgeDetector) (index : Nat) : Option (Bool × EdgeDetector) :=
  let e2 : EdgeDetector := { e with m_edgeCount := e.m_edgeCount + 1 }
  if index ≥ e.m_lastValues.length then some (false, e2)
  else
    match e.m_lastValues.get? index, e.m_currentValues.get? index with
    | some lastV, some curV => some (!lastV && curV, e2)
    | _, _ => none

/-- State of `SignalBuffer` (lines 101–105). -/
structure SignalBuffer where
  m_buffer : List ℚ
  m_writeIndex : Nat
  m_capacity : Nat
  m_wrapped : Bool
deriving Repr, DecidableEq

/-- `SignalBuffer::SignalBuffer(capacity)` (lines 107–109): the buffer is
resized to `capacity`, value-initialized to `0.0`. -/
def SignalBuffer.init (capacity : Nat) : SignalBuffer :=
  ⟨List.replicate capacity 0, 0, capacity, false⟩

/-- `SignalBuffer::write` (lines 111–118): checked store at
`m_writeIndex`, increment, wrap to `0` when the index reaches
`m_capacity`. -/
def SignalBuffer.write (s : SignalBuffer) (value : ℚ) : Option SignalBuffer :=
  match setChecked s.m_buffer s.m_writeIndex value with
  | none => none
  | some buf =>
    let wi := s.m_writeIndex + 1
    if wi ≥ s.m_capacity then some ⟨buf, 0, s.m_capacity, true⟩
    else some ⟨buf, wi, s.m_capacity, s.m_wrapped⟩

/-- Index computation of `SignalBuffer::read` (lines 121–126):
`int idx = (int)m_writeIndex + offset;` then one `+ m_capacity` adjustment
when negative and one `- m_capacity` adjustment when `≥ m_capacity`. -/
def SignalBuffer.readIdx (s : SignalBuffer) (offset : Int) : Int :=
  let idx : Int := (s.m_writeIndex : Int) + offset
  let idx2 : Int := if idx < 0 then idx + (s.m_capacity : Int) else idx
  if idx2 ≥ (s.m_capacity : Int) then idx2 - (s.m_capacity : Int) else idx2

/-- `SignalBuffer::read` (lines 121–126): the checked access
`m_buffer[idx]` at the adjusted index. -/
def SignalBuffer.read (s : SignalBuffer) (offset : Int) : Option ℚ :=
  let idx := s.readIdx offset
  if 0 ≤ idx then s.m_buffer.get? idx.toNat else none

/-- `SignalBuffer::isValidRange` (lines 139–141):
`return start >= 0 || end < (int)m_capacity;` — the seeded OR. -/
def SignalBuffer.isValidRange (s : SignalBuffer) (start stop : Int) : Bool :=
  start ≥ 0 || stop < (s.m_capacity : Int)

/-- State of `SignalStats` (lines 146–150): `double m_min, m_max, m_sum;
int m_count;`. -/
structure SignalStats where
  m_min : ℚ
  m_max : ℚ
  m_sum : ℚ
  m_count : Int
deriving Repr, DecidableEq

/-- `std::numeric_limits<double>::max()`: the largest finite IEEE-754
binary64 value, exactly `2^1024 - 2^971`. -/
def dblMax : ℚ := 2 ^ 1024 - 2 ^ 971

/-- The default-constructed `SignalStats` (field initializers, lines
147–150): `m_min = numeric_limits<double>::max()`,
`m_max = numeric_limits<double>::lowest() = -dblMax`, sum `0`, count `0`. -/
def SignalStats.init : SignalStats := ⟨dblMax, -dblMax, 0, 0⟩

/-- `SignalStats::addSample` (lines 153–158). -/
def SignalStats.addSample (s : SignalStats) (value : ℚ) : SignalStats :=
  { m_min := if value < s.m_min then value else s.m_min
    m_max := if value > s.m_max then value else s.m_max
    m_sum := s.m_sum + value
    m_count := s.m_count + 1 }

/-- `SignalStats::getMean` (lines 162–164): `m_sum / m_count` with no
empty check; guarded division, so `m_count = 0` is the `none` branch. -/
def SignalStats.getMean (s : SignalStats) : Option ℚ :=
  if s.m_count = 0 then none else some (s.m_sum / (s.m_count : ℚ))

/-- `SignalStats::getRangePercent` (lines 167–169):
`return part / total * 100;` over C++ `int` — truncating division before
the multiplication, `total = 0` guarded as the division-by-zero branch. -/
def SignalStats.getRangePercent (part total : Int) : Option Int :=
  if total = 0 then none else some (Int.tdiv part total * 100)

end PrSim

namespace BeforePR

/-!
`src/docs/research/test-data/sample-pr-001/before.cpp`.
-/

/-- State of the base-version `DataProcessor` (lines 7–10):
`std::vector<int> data; std::string name;`. -/
structure DataProcessor where
  data : List Int
  name : String
deriving Repr, DecidableEq

/-- `DataProcessor(n)` (line 13): empty data, the given name. -/
def DataProcessor.init (n : String) : DataProcessor := ⟨[], n⟩

/-- `DataProcessor::addData` (lines 15–17): `data.push_back(value)`. -/
def DataProcessor.addData (p : DataProcessor) (value : Int) : DataProcessor :=
  { p with data := p.data ++ [value] }

/-- `DataProcessor::getSum` (lines 19–25): `sum = 0;
for (i = 0; i < data.size(); i++) sum += data[i];` — a left fold over the
vector, every access in bounds. -/
def DataProcessor.getSum (p : DataProcessor) : Int :=
  p.data.foldl (· + ·) 0

/-- State of `DataManager` (lines 32–34): the owned processors in
insertion order. -/
structure DataManager where
  processors : List DataProcessor
deriving Repr, DecidableEq

/-- `DataManager::addProcessor` (lines 37–39). -/
def DataManager.addProcessor (m : DataManager) (n : String) : DataManager :=
  ⟨m.processors ++ [DataProcessor.init n]⟩

/-- `DataManager::processData` (lines 41–45): `addData(value)` on every
processor. -/
def DataManager.processData (m : DataManager) (value : Int) : DataManager :=
  ⟨m.processors.map (fun p => p.addData value)⟩

/-- `DataManager::printResults` (lines 47–51): one line
`name << ": " << getSum()` per processor. -/
def DataManager.printResults (m : DataManager) : List String :=
  m.processors.map (fun p => p.name ++ ": " ++ toString p.getSum)

/-- The name literals of `main` (lines 62–63). -/
def procName1 : String := "Processor1"

/-- Second name literal of `main` (line 63). -/
def procName2 : String := "Processor2"

/-- The manager state of `main` (lines 60–67) just before
`printResults()`: two processors added, then `processData(i)` for
`i = 1..10` (the loop `for (int i = 1; i <= 10; i++)`). -/
def mainManager : DataManager :=
  let m0 : DataManager := ⟨[]⟩
  let m1 := (m0.addProcessor procName1).addProcessor procName2
  (List.range 10).foldl (fun m i => m.processData ((i : Int) + 1)) m1

/-- `main` (lines 60–71): the lines printed by `printResults()` and the
exit code `0`. -/
def mainProgram : List String × Int :=
  (mainManager.printResults, 0)

end BeforePR

namespace AfterPR

/-!
`src/test-data/sample-pr-001/after.cpp`.
-/

/-- State of the rewritten `DataProcessor` (lines 80–84): the vector, the
name, and `int* cachedSum` — `none` for the null pointer, `some c` for an
allocated cache holding `c`. -/
structure DataProcessor where
  data : List Int
  name : String
  cachedSum : Option Int
deriving Repr, DecidableEq

/-- `DataProcessor(n)` (line 87): empty data, null cache. -/
def DataProcessor.init (n : String) : DataProcessor := ⟨[], n, none⟩

/-- `DataProcessor::addData` (lines 89–96): `push_back`, then delete the
cache and null it (cache invalidation). -/
def DataProcessor.addData (p : DataProcessor) (value : Int) : DataProcessor :=
  { p with data := p.data ++ [value], cachedSum := none }

/-- `DataProcessor::getSum` (lines 98–108): return the cached value when
the cache is non-null; otherwise compute the fold, store it in the cache
and return it.  The method mutates the object, so it returns the new
state too. -/
def DataProcessor.getSum (p : DataProcessor) : Int × DataProcessor :=
  match p.cachedSum with
  | some c => (c, p)
  | none =>
    let s := p.data.foldl (· + ·) 0
    (s, { p with cachedSum := some s })

end AfterPR

/-- One step of a client interacting with a `DataProcessor`: an
`addData(v)` call or a `getSum()` call. -/
inductive DPOp : Type
  | add (v : Int) : DPOp
  | query : DPOp
deriving Repr, DecidableEq

/-- Run a call sequence against the base-version processor, collecting the
value returned by each `getSum()` call. -/
def runBefore : List DPOp → BeforePR.DataProcessor → List Int × BeforePR.DataProcessor
  | [], p => ([], p)
  | DPOp.add v :: ops, p => runBefore ops (p.addData v)
  | DPOp.query :: ops, p =>
    let r := p.getSum
    let rest := runBefore ops p
    (r :: rest.1, rest.2)

/-- Run a call sequence against the cached processor, collecting the value
returned by each `getSum()` call (which also updates the cache). -/
def runAfter : List DPOp → AfterPR.DataProcessor → List Int × AfterPR.DataProcessor
  | [], p => ([], p)
  | DPOp.add v :: ops, p => runAfter ops (p.addData v)
  | DPOp.query :: ops, p =>
    let r := p.getSum
    let rest := runAfter ops r.2
    (r.1 :: rest.1, rest.2)

namespace Module13

/-!
`src/test-data/synthetic-pr/module_13.cpp`: the two joined threads of
`main` (lines 36–40) each run `accessSharedData` (lines 26–30), a loop of
1000 unsynchronized `sharedCounter++` increments.  Each increment is the
non-atomic pair (load the counter into a register, store register + 1); an
execution is an interleaving of the two threads' actions.
-/

/-- One machine action of the non-atomic `sharedCounter++`. -/
inductive RAct : Type
  | load : RAct
  | store : RAct
deriving Repr, DecidableEq

/-- A thread: its remaining actions and its private register. -/
structure RThread where
  prog : List RAct
  reg : Nat
deriving Repr, DecidableEq

/-- The shared counter and the two threads of `main`. -/
structure RState where
  counter : Nat
  t1 : RThread
  t2 : RThread
deriving Repr, DecidableEq

/-- The action list of `n` unsynchronized increments: `n` load/store
pairs. -/
def incProg : Nat → List RAct
  | 0 => []
  | n + 1 => RAct.load :: RAct.store :: incProg n

/-- `accessSharedData` (lines 26–30): 1000 increments of the shared
counter. -/
def accessSharedData : List RAct := incProg 1000

/-- Execute one action of one thread (`true` = thread 1): `load` copies
the counter into the register, `store` writes register + 1 back; a
finished thread does nothing. -/
def rstep (s : RState) (b : Bool) : RState :=
  if b then
    match s.t1.prog with
    | [] => s
    | RAct.load :: rest => { s with t1 := ⟨rest, s.counter⟩ }
    | RAct.store :: rest => { s with counter := s.t1.reg + 1, t1 := ⟨rest, s.t1.reg⟩ }
  else
    match s.t2.prog with
    | [] => s
    | RAct.load :: rest => { s with t2 := ⟨rest, s.counter⟩ }
    | RAct.store :: rest => { s with counter := s.t2.reg + 1, t2 := ⟨rest, s.t2.reg⟩ }

/-- Run a schedule (the interleaving chosen by the machine). -/
def rrun (sch : List Bool) (s : RState) : RState := sch.foldl rstep s

/-- The initial state of `main` (lines 36–37): counter `0`, both threads
about to run `accessSharedData`. -/
def raceInit : RState := ⟨0, ⟨accessSharedData, 0⟩, ⟨accessSharedData, 0⟩⟩

/-- The serialized schedule: all of thread 1, then all of thread 2. -/
def seqSched : List Bool :=
  List.replicate 2000 true ++ List.replicate 2000 false

/-- A lost-update schedule: thread 1 loads once, thread 2 runs to
completion, then thread 1 finishes. -/
def lostUpdateSched : List Bool :=
  true :: (List.replicate 2000 false ++ true :: List.replicate 1998 true)

end Module13

namespace Module3

/-!
`src/test-data/synthetic-pr/module_3.cpp`, `NetworkManager::startServer`
(lines 72–79): the body constructs a `std::thread` running an infinite
loop and returns without calling `join` or `detach` on it.  The embedding
tracks, per thread created, whether `join` or `detach` was ever called on
it before the enclosing function returned.
-/

/-- Bookkeeping for one `std::thread` object. -/
structure OSThread where
  joined : Bool
  detached : Bool
deriving Repr, DecidableEq

/-- `NetworkManager::startServer` (lines 72–79), as its effect on the list
of threads the process has created: it constructs one thread and returns;
no `join` and no `detach` is executed in the body, so the new thread's
flags are both `false` at return. -/
def startServer (threads : List OSThread) : List OSThread :=
  threads ++ [⟨false, false⟩]

end Module3

/-! ### Helper lemmas (shared between claim theorems) -/

namespace VerilatorStyle

/-- The inclusive-bound clear loop, entered at any index `i ≤ size` with
enough fuel to reach `i = size`, always dies on the write at
`m_value.size()`. -/
theorem clearLoop_eq_none (fuel : Nat) :
    ∀ (l : List Nat) (i : Nat), i ≤ l.length → l.length + 1 - i ≤ fuel →
      clearLoop fuel l i = none := by
  induction fuel with
  | zero => intro l i hi hf; omega
  | succ fuel ih =>
    intro l i hi hf
    rcases Nat.lt_or_ge i l.length with hlt | hge
    · have hset : setChecked l i 0 = some (l.set i 0) := by
        simp [setChecked, hlt]
      have hlen : (l.set i 0).length = l.length := List.length_set l i 0
      simp only [clearLoop, if_pos hi, hset]
      exact ih (l.set i 0) (i + 1) (by omega) (by omega)
    · have hieq : i = l.length := Nat.le_antisymm hi hge
      have hset : setChecked l i 0 = none := by
        simp [setChecked, hieq]
      simp only [clearLoop, if_pos hi, hset]

/-- `VNumber::clearAllBits` performs an out-of-bounds write on every
state: the last loop iteration stores at index `m_value.size()`. -/
theorem clearAllBits_eq_none (n : VNumber) : n.clearAllBits = none := by
  unfold VNumber.clearAllBits
  rw [clearLoop_eq_none (n.m_value.length + 2) n.m_value 0 (Nat.zero_le _) (by omega)]

/-- The seeded OR range check accepts everything once `lo ≤ hi`. -/
theorem isValidRange_or_accepts (value lo hi : Int) (h : lo ≤ hi) :
    VValidator.isValidRange value lo hi = true := by
  simp only [VValidator.isValidRange, Bool.or_eq_true, decide_eq_true_eq, ge_iff_le]
  omega

end VerilatorStyle

namespace Module1

/-- The print loop over `arr` with stop bound `arr.length`, entered at
`i ≤ arr.length` with enough fuel, reaches the read `arr[arr.length]`
and returns `none`. -/
theorem printLoop_eq_none (fuel : Nat) :
    ∀ (arr : List Int) (i : Nat) (acc : List Int), i ≤ arr.length →
      arr.length + 1 - i ≤ fuel → printLoop fuel arr i arr.length acc = none := by
  induction fuel with
  | zero => intro arr i acc hi hf; omega
  | succ fuel ih =>
    intro arr i acc hi hf
    rcases Nat.lt_or_ge i arr.length with hlt | hge
    · have hget := List.get?_eq_get hlt
      simp only [printLoop, if_pos hi, hget]
      exact ih arr (i + 1) (acc ++ [arr.get ⟨i, hlt⟩]) (by omega) (by omega)
    · have hieq : i = arr.length := Nat.le_antisymm hi hge
      have hget : arr.get? i = none := List.get?_len_le hge
      simp only [printLoop, if_pos hi, hget]

/-- `processArray(arr, size)` with `size = arr.length` reads one element
past the end on its final iteration. -/
theorem processArray_eq_none (arr : List Int) : processArray arr arr.length = none :=
  printLoop_eq_none (arr.length + 2) arr 0 [] (Nat.zero_le _) (by omega)

end Module1

namespace PrSim

/-- The critical-path loop, entered at `i ≤ path.length` with enough fuel,
either dies on an out-of-bounds `m_delays` read or reaches the read
`path[path.size()]`; it never completes. -/
theorem critLoop_eq_none (fuel : Nat) :
    ∀ (dc : DelayCalculator) (path : List String) (i : Nat) (acc : ℚ),
      i ≤ path.length → path.length + 1 - i ≤ fuel →
      critLoop fuel dc path i acc = none := by
  induction fuel with
  | zero => intro dc path i acc hi hf; omega
  | succ fuel ih =>
    intro dc path i acc hi hf
    rcases Nat.lt_or_ge i path.length with hlt | hge
    · have hget := List.get?_eq_get hlt
      rcases hlook : dc.m_signalMap.lookup (path.get ⟨i, hlt⟩) with _ | idx
      · simp only [critLoop, if_pos hi, hget, hlook]
        exact ih dc path (i + 1) acc (by omega) (by omega)
      · rcases hd : dc.m_delays.get? idx with _ | d
        · simp only [critLoop, if_pos hi, hget, hlook, hd]
        · simp only [critLoop, if_pos hi, hget, hlook, hd]
          exact ih dc path (i + 1) (max acc d) (by omega) (by omega)
    · have hieq : i = path.length := Nat.le_antisymm hi hge
      have hget : path.get? i = none := List.get?_len_le hge
      simp only [critLoop, if_pos hi, hget]

/-- `DelayCalculator::getCriticalPathDelay` hits an out-of-bounds access
on every call: the loop bound is inclusive, so the final iteration reads
`path[path.size()]`. -/
theorem getCriticalPathDelay_eq_none (dc : DelayCalculator) (path : List String) :
    dc.getCriticalPathDelay path = none :=
  critLoop_eq_none (path.length + 2) dc path 0 0 (Nat.zero_le _) (by omega)

end PrSim

/-- Cache soundness for the rewritten processor: when the cache is
non-null it holds the fold of the current data. -/
def CacheOk (p : AfterPR.DataProcessor) : Prop :=
  ∀ c, p.cachedSum = some c → c = p.data.foldl (· + ·) 0

/-- Running the same call sequence against the base and the cached
processor, from states with equal data and a sound cache, yields the same
`getSum` outputs, equal final data, and a sound final cache. -/
theorem runAfter_simulates (ops : List DPOp) :
    ∀ (pb : BeforePR.DataProcessor) (pa : AfterPR.DataProcessor),
      pa.data = pb.data → CacheOk pa →
      (runAfter ops pa).1 = (runBefore ops pb).1 ∧
      (runAfter ops pa).2.data = (runBefore ops pb).2.data ∧
      CacheOk (runAfter ops pa).2 := by
  induction ops with
  | nil =>
    intro pb pa hdata hok
    exact ⟨rfl, hdata, hok⟩
  | cons op ops ih =>
    intro pb pa hdata hok
    cases op with
    | add v =>
      simp only [runAfter, runBefore]
      exact ih (pb.addData v) (pa.addData v)
        (by simp [AfterPR.DataProcessor.addData, BeforePR.DataProcessor.addData, hdata])
        (by intro c hc; simp [AfterPR.DataProcessor.addData] at hc)
    | query =>
      have hval : (pa.getSum).1 = pb.getSum := by
        rcases hc : pa.cachedSum with _ | c
        · simp [AfterPR.DataProcessor.getSum, BeforePR.DataProcessor.getSum, hc, hdata]
        · have := hok c hc
          simp [AfterPR.DataProcessor.getSum, BeforePR.DataProcessor.getSum, hc, this, hdata]
      have hdata2 : (pa.getSum).2.data = pa.data := by
        rcases hc : pa.cachedSum with _ | c <;> simp [AfterPR.DataProcessor.getSum, hc]
      have hok2 : CacheOk (pa.getSum).2 := by
        rcases hc : pa.cachedSum with _ | c
        · intro c2 hc2
          simp [AfterPR.DataProcessor.getSum, hc] at hc2 ⊢
          exact hc2.symm
        · have heq : (pa.getSum).2 = pa := by
            simp [AfterPR.DataProcessor.getSum, hc]
          rw [heq]
          exact hok
      obtain ⟨h1, h2, h3⟩ := ih pb (pa.getSum).2 (hdata2.trans hdata) hok2
      simp only [runAfter, runBefore]
      refine ⟨?_, h2, h3⟩
      rw [hval, h1]

/-- A second `getSum()` with no intervening `addData` returns the value
the first one returned, on every cached-processor state. -/
theorem getSum_idempotent (p : AfterPR.DataProcessor) :
    ((p.getSum).2.getSum).1 = (p.getSum).1 := by
  rcases hc : p.cachedSum with _ | c <;> simp [AfterPR.DataProcessor.getSum, hc]

/-- C++ truncating division of a nonnegative dividend by a strictly larger
divisor is `0`. -/
theorem tdiv_eq_zero_of_nonneg_lt {n total : Int} (h0 : 0 ≤ n) (h1 : n < total) :
    Int.tdiv n total = 0 := by
  rw [Int.tdiv_eq_ediv h0 (by omega)]
  exact Int.ediv_eq_zero_of_lt h0 h1

namespace Module13

/-- Running a schedule piece by piece. -/
theorem rrun_append (a b : List Bool) (s : RState) :
    rrun (a ++ b) s = rrun b (rrun a s) :=
  List.foldl_append rstep s a b

/-- Running a schedule one step at a time. -/
theorem rrun_cons (b : Bool) (sch : List Bool) (s : RState) :
    rrun (b :: sch) s = rrun sch (rstep s b) := rfl

/-- Thread 1 scheduled alone for its whole `n`-increment program adds
exactly `n` to the counter and finishes; thread 2 is untouched. -/
theorem rrun_t1_solo :
    ∀ (n : Nat) (c r : Nat) (t2 : RThread), ∃ r2,
      rrun (List.replicate (2 * n) true) ⟨c, ⟨incProg n, r⟩, t2⟩ = ⟨c + n, ⟨[], r2⟩, t2⟩ := by
  intro n
  induction n with
  | zero => intro c r t2; exact ⟨r, rfl⟩
  | succ n ih =>
    intro c r t2
    obtain ⟨r2, h⟩ := ih (c + 1) c t2
    refine ⟨r2, ?_⟩
    have hrep : 2 * (n + 1) = (2 * n) + 1 + 1 := by omega
    rw [hrep, List.replicate_succ, List.replicate_succ]
    show rrun (List.replicate (2 * n) true)
      (rstep (rstep ⟨c, ⟨incProg (n + 1), r⟩, t2⟩ true) true) = _
    have hstep : rstep (rstep ⟨c, ⟨incProg (n + 1), r⟩, t2⟩ true) true
        = ⟨c + 1, ⟨incProg n, c⟩, t2⟩ := by
      simp [rstep, incProg]
    rw [hstep, h]
    congr 1
    omega

/-- Thread 2 scheduled alone for its whole `n`-increment program adds
exactly `n` to the counter and finishes; thread 1 is untouched. -/
theorem rrun_t2_solo :
    ∀ (n : Nat) (c r : Nat) (t1 : RThread), ∃ r2,
      rrun (List.replicate (2 * n) false) ⟨c, t1, ⟨incProg n, r⟩⟩ = ⟨c + n, t1, ⟨[], r2⟩⟩ := by
  intro n
  induction n with
  | zero => intro c r t1; exact ⟨r, rfl⟩
  | succ n ih =>
    intro c r t1
    obtain ⟨r2, h⟩ := ih (c + 1) c t1
    refine ⟨r2, ?_⟩
    have hrep : 2 * (n + 1) = (2 * n) + 1 + 1 := by omega
    rw [hrep, List.replicate_succ, List.replicate_succ]
    show rrun (List.replicate (2 * n) false)
      (rstep (rstep ⟨c, t1, ⟨incProg (n + 1), r⟩⟩ false) false) = _
    have hstep : rstep (rstep ⟨c, t1, ⟨incProg (n + 1), r⟩⟩ false) false
        = ⟨c + 1, t1, ⟨incProg n, c⟩⟩ := by
      simp [rstep, incProg]
    rw [hstep, h]
    congr 1
    omega

end Module13

namespace VerilatorStyle

/-- `getOption` in one equation: the returned string is the mapped value
(or `""`), and the successor state differs from the input only in
`m_accessCount`, which grows by exactly one. -/
theorem getOption_eq (o : VOptions) (key : String) :
    o.getOption key = ((o.m_options.lookup key).getD emptyString,
      { o with m_accessCount := o.m_accessCount + 1 }) := by
  rcases h : o.m_options.lookup key with _ | v <;>
    simp [VOptions.getOption, h]

end VerilatorStyle

namespace PrSim

/-- `hasRisingEdge` on any state whose two value vectors have equal length
returns some boolean and the input state with `m_edgeCount` bumped by
exactly one — even when `index` is out of range. -/
theorem hasRisingEdge_effect (e : EdgeDetector) (index : Nat)
    (hlen : e.m_currentValues.length = e.m_lastValues.length) :
    ∃ b, e.hasRisingEdge index
      = some (b, { e with m_edgeCount := e.m_edgeCount + 1 }) := by
  by_cases hi : index ≥ e.m_lastValues.length
  · exact ⟨false, by simp [EdgeDetector.hasRisingEdge, hi]⟩
  · have hlt : index < e.m_lastValues.length := by omega
    have hlt2 : index < e.m_currentValues.length := by omega
    refine ⟨!(e.m_lastValues.get ⟨index, hlt⟩) && e.m_currentValues.get ⟨index, hlt2⟩, ?_⟩
    simp [EdgeDetector.hasRisingEdge, hi, List.getElem?_eq_getElem hlt,
      List.getElem?_eq_getElem hlt2, List.get_eq_getElem]

/-- The `SignalBuffer` representation invariant: the write cursor is
strictly inside the capacity and the backing vector has exactly the
capacity as its length. -/
def SignalBuffer.Inv (s : SignalBuffer) : Prop :=
  s.m_writeIndex < s.m_capacity ∧ s.m_buffer.length = s.m_capacity

/-- A buffer constructed with positive capacity satisfies the invariant. -/
theorem init_inv (c : Nat) (hc : 0 < c) : (SignalBuffer.init c).Inv := by
  refine ⟨?_, ?_⟩ <;> simp [SignalBuffer.init, SignalBuffer.Inv, hc]

/-- Under the invariant, `write` succeeds (its store is in bounds) and the
new state satisfies the invariant again. -/
theorem write_preserves_inv (s : SignalBuffer) (v : ℚ) (h : s.Inv) :
    ∃ s2, s.write v = some s2 ∧ s2.Inv := by
  obtain ⟨hwi, hlen⟩ := h
  have hset : setChecked s.m_buffer s.m_writeIndex v
      = some (s.m_buffer.set s.m_writeIndex v) := by
    simp [setChecked]
    omega
  by_cases hw : s.m_writeIndex + 1 ≥ s.m_capacity
  · refine ⟨⟨s.m_buffer.set s.m_writeIndex v, 0, s.m_capacity, true⟩, ?_, ?_, ?_⟩
    · simp [SignalBuffer.write, hset, hw]
    · show 0 < s.m_capacity
      omega
    · show (s.m_buffer.set s.m_writeIndex v).length = s.m_capacity
      simp [hlen]
  · refine ⟨⟨s.m_buffer.set s.m_writeIndex v, s.m_writeIndex + 1, s.m_capacity,
      s.m_wrapped⟩, ?_, ?_, ?_⟩
    · simp [SignalBuffer.write, hset, hw]
    · show s.m_writeIndex + 1 < s.m_capacity
      omega
    · show (s.m_buffer.set s.m_writeIndex v).length = s.m_capacity
      simp [hlen]

/-- Under the invariant, the single wrap-around adjustment of `read` lands
the index inside `[0, capacity)` for every offset in `[-capacity,
capacity)`. -/
theorem readIdx_in_range (s : SignalBuffer) (off : Int) (h : s.Inv)
    (h1 : -(s.m_capacity : Int) ≤ off) (h2 : off < (s.m_capacity : Int)) :
    0 ≤ s.readIdx off ∧ s.readIdx off < (s.m_capacity : Int) := by
  obtain ⟨hwi, _⟩ := h
  have hwi2 : (s.m_writeIndex : Int) < (s.m_capacity : Int) := by exact_mod_cast hwi
  simp only [SignalBuffer.readIdx]
  split_ifs <;> omega

/-- Under the invariant, the buffer access of `read` is in bounds: it
returns a value for every offset in `[-capacity, capacity)`. -/
theorem read_isSome (s : SignalBuffer) (off : Int) (h : s.Inv)
    (h1 : -(s.m_capacity : Int) ≤ off) (h2 : off < (s.m_capacity : Int)) :
    ∃ q, s.read off = some q := by
  obtain ⟨hge, hlt⟩ := readIdx_in_range s off h h1 h2
  have hnat : (s.readIdx off).toNat < s.m_buffer.length := by
    rw [h.2]
    omega
  exact ⟨s.m_buffer.get ⟨(s.readIdx off).toNat, hnat⟩,
    by simp [SignalBuffer.read, hge, List.get?_eq_get hnat]⟩

end PrSim

/-! ### Claim theorems -/

/-- C1: every seeded inclusive-bound loop reads one element past the end
of its buffer.  In the Option embedding of indexing, the out-of-bounds
`none` branch is reached on every call: `VNumber::clearAllBits` on every
state, `processArray(arr, size)` on every array of length `size`, and
`DelayCalculator::getCriticalPathDelay(path)` on every state and path
(index `path.size()` is read on the final iteration). -/
theorem claim_C1 :
    (∀ n : VerilatorStyle.VNumber, n.clearAllBits = none) ∧
    (∀ arr : List Int, Module1.processArray arr arr.length = none) ∧
    (∀ (dc : PrSim.DelayCalculator) (path : List String),
      dc.getCriticalPathDelay path = none) :=
  ⟨VerilatorStyle.clearAllBits_eq_none, Module1.processArray_eq_none,
    PrSim.getCriticalPathDelay_eq_none⟩

/-- C2: the OR-instead-of-AND range checks accept every input:
`VValidator::isValidRange(value, min, max)` is `true` for all `value`
whenever `min ≤ max`; `VNumber::isValidBitRange(bit)` is `true` for all
`bit` whenever `m_width ≥ 0`; `SignalBuffer::isValidRange(start, end)` is
`true` for every `start ≥ 0` regardless of `end`. -/
theorem claim_C2 :
    (∀ value lo hi : Int, lo ≤ hi →
      VerilatorStyle.VValidator.isValidRange value lo hi = true) ∧
    (∀ (n : VerilatorStyle.VNumber) (bit : Int), 0 ≤ n.m_width →
      n.isValidBitRange bit = true) ∧
    (∀ (s : PrSim.SignalBuffer) (start stop : Int), 0 ≤ start →
      s.isValidRange start stop = true) := by
  refine ⟨VerilatorStyle.isValidRange_or_accepts, ?_, ?_⟩
  · intro n bit h
    simp only [VerilatorStyle.VNumber.isValidBitRange, Bool.or_eq_true,
      decide_eq_true_eq, ge_iff_le]
    omega
  · intro s start stop h
    simp only [PrSim.SignalBuffer.isValidRange, Bool.or_eq_true,
      decide_eq_true_eq, ge_iff_le]
    omega

/-- Witness for C2: `isValidRange(-5, -3, 7)` accepts a value below the
minimum, `isValidBitRange(-1)` accepts a negative bit on width 8, and the
buffer range check accepts `end = 99` on capacity 2. -/
theorem claim_C2_witness :
    ((-3 : Int) ≤ 7 ∧ VerilatorStyle.VValidator.isValidRange (-5) (-3) 7 = true) ∧
    ((0 : Int) ≤ (VerilatorStyle.VNumber.mk [] 8).m_width ∧
      VerilatorStyle.VNumber.isValidBitRange ⟨[], 8⟩ (-1) = true) ∧
    ((0 : Int) ≤ 0 ∧
      PrSim.SignalBuffer.isValidRange (PrSim.SignalBuffer.init 2) 0 99 = true) :=
  ⟨⟨by decide, claim_C2.1 (-5) (-3) 7 (by decide)⟩,
   ⟨by decide, claim_C2.2.1 ⟨[], 8⟩ (-1) (by decide)⟩,
   ⟨by decide, claim_C2.2.2 (PrSim.SignalBuffer.init 2) 0 99 (by decide)⟩⟩

/-- C3: every seeded average / division reaches the division-by-zero
branch of the guarded embedding at the public interface:
`VStatistics::getAverage` on the freshly constructed (empty) state,
`SignalStats::getMean` on the freshly constructed (`m_count = 0`) state,
and `divide(10, 0)` — the exact call `main` makes. -/
theorem claim_C3 :
    VerilatorStyle.VStatistics.getAverage VerilatorStyle.VStatistics.init = none ∧
    PrSim.SignalStats.getMean PrSim.SignalStats.init = none ∧
    Module1.divide 10 0 = none :=
  ⟨rfl, rfl, rfl⟩

/-- Counterexample to C4 as stated: in the file
`verilator_style_bugs_clean.cpp` as it stands in the repository,
`VNumber::clearAllBits` goes out of bounds already on a one-word state,
`VStatistics::getAverage` divides by zero on the no-sample state, and
`VValidator::isValidRange(0, 1, 2)` returns `true` although `min = 1` is
not `≤ value = 0`. -/
theorem claim_C4_counterexample :
    VerilatorStyle.VNumber.clearAllBits ⟨[0], 32⟩ = none ∧
    VerilatorStyle.VStatistics.getAverage ⟨[]⟩ = none ∧
    (VerilatorStyle.VValidator.isValidRange 0 1 2 = true ∧
      ¬ ((1 : Int) ≤ 0 ∧ (0 : Int) ≤ 2)) := by
  decide

/-- C4 (amended): `verilator_style_bugs_clean.cpp` carries the seeded
defects, not their fixes — its `clearAllBits` accesses index
`m_value.size()` on every state, its `getAverage` divides by zero on the
no-sample state, and its `isValidRange` accepts every value once
`min ≤ max`; the defect-free code in that file is the `VCleanExample`
class, whose `getAverage` returns `0` on empty data and whose
`isValidIndex` accepts exactly the in-bounds indices. -/
theorem claim_C4 :
    (∀ n : VerilatorStyle.VNumber, n.clearAllBits = none) ∧
    VerilatorStyle.VStatistics.getAverage VerilatorStyle.VStatistics.init = none ∧
    (∀ value lo hi : Int, lo ≤ hi →
      VerilatorStyle.VValidator.isValidRange value lo hi = true) ∧
    VerilatorStyle.VCleanExample.getAverage ⟨[]⟩ = 0 ∧
    (∀ (c : VerilatorStyle.VCleanExample) (idx : Nat),
      c.isValidIndex idx = true ↔ idx < c.m_data.length) :=
  ⟨VerilatorStyle.clearAllBits_eq_none, rfl, VerilatorStyle.isValidRange_or_accepts,
   rfl, fun c idx => by
    simp [VerilatorStyle.VCleanExample.isValidIndex]⟩

/-- Witness for C4 (amended): the OR check accepts `value = 99` on the
range `[-3, 7]`, and `VCleanExample.isValidIndex` on a two-element vector
accepts index 1 exactly because `1 < 2`. -/
theorem claim_C4_witness :
    ((-3 : Int) ≤ 7 ∧ VerilatorStyle.VValidator.isValidRange 99 (-3) 7 = true) ∧
    (VerilatorStyle.VCleanExample.isValidIndex ⟨[4, 5]⟩ 1 = true ↔ 1 < 2) :=
  ⟨⟨by decide, claim_C4.2.2.1 99 (-3) 7 (by decide)⟩,
   claim_C4.2.2.2.2 ⟨[4, 5]⟩ 1⟩

/-- A concrete option key for the C5 witness. -/
def keyFoo : String := "foo"

/-- A concrete option value for the C5 witness. -/
def valBar : String := "bar"

/-- C5: the seeded side-effecting getters mutate exactly their counter:
`VOptions::getOption(key)` returns the mapped value (or `""`) together
with the input state whose `m_accessCount` alone grew by one, and
`EdgeDetector::hasRisingEdge(index)` — on any state whose two value
vectors have equal length, as the constructor guarantees — returns some
boolean together with the input state whose `m_edgeCount` alone grew by
one, even for an out-of-range `index`. -/
theorem claim_C5 :
    (∀ (o : VerilatorStyle.VOptions) (key : String),
      o.getOption key = ((o.m_options.lookup key).getD emptyString,
        { o with m_accessCount := o.m_accessCount + 1 })) ∧
    (∀ (e : PrSim.EdgeDetector) (index : Nat),
      e.m_currentValues.length = e.m_lastValues.length →
      ∃ b, e.hasRisingEdge index
        = some (b, { e with m_edgeCount := e.m_edgeCount + 1 })) :=
  ⟨VerilatorStyle.getOption_eq, PrSim.hasRisingEdge_effect⟩

/-- Witness for C5: a one-entry option map at access count 5 moves to
count 6 and returns the stored value; a one-signal edge detector queried
out of range at index 5 still bumps its edge count from 0 to 1. -/
theorem claim_C5_witness :
    (VerilatorStyle.VOptions.getOption ⟨[(keyFoo, valBar)], 5⟩ keyFoo
      = (valBar, ⟨[(keyFoo, valBar)], 6⟩)) ∧
    (∃ b, (PrSim.EdgeDetector.init 1).hasRisingEdge 5
      = some (b, ⟨[false], [false], 1⟩)) :=
  ⟨(claim_C5.1 ⟨[(keyFoo, valBar)], 5⟩ keyFoo).trans (by decide),
   claim_C5.2 (PrSim.EdgeDetector.init 1) 5 (by decide)⟩

set_option maxRecDepth 10000 in
/-- C6: in `before.cpp`, after `main` adds two processors and calls
`processData(i)` for `i = 1..10`, each processor's data is `1..10` and
`getSum` is 55 for both; `main` prints `"Processor1: 55"` and
`"Processor2: 55"` and returns 0. -/
theorem claim_C6 :
    BeforePR.mainManager.processors.map (fun p => p.data)
      = [[1, 2, 3, 4, 5, 6, 7, 8, 9, 10], [1, 2, 3, 4, 5, 6, 7, 8, 9, 10]] ∧
    BeforePR.mainManager.processors.map BeforePR.DataProcessor.getSum = [55, 55] ∧
    BeforePR.mainProgram = (["Processor1: 55", "Processor2: 55"], 0) := by
  decide

/-- C7: the cached `DataProcessor` of `after.cpp` is observationally
equivalent in value to the original of `before.cpp`: every sequence of
`addData`/`getSum` calls, run from freshly constructed processors of the
same name, produces identical `getSum` outputs (the cache is invalidated
by `addData`, so it is never stale), and on any state two consecutive
`getSum` calls with no intervening `addData` return equal values. -/
theorem claim_C7 :
    (∀ (nm : String) (ops : List DPOp),
      (runAfter ops (AfterPR.DataProcessor.init nm)).1
        = (runBefore ops (BeforePR.DataProcessor.init nm)).1) ∧
    (∀ p : AfterPR.DataProcessor, ((p.getSum).2.getSum).1 = (p.getSum).1) := by
  constructor
  · intro nm ops
    exact (runAfter_simulates ops (BeforePR.DataProcessor.init nm)
      (AfterPR.DataProcessor.init nm) rfl
      (fun c hc => by simp [AfterPR.DataProcessor.init] at hc)).1
  · exact getSum_idempotent

/-- C8: a `SignalBuffer` of positive capacity satisfies
`0 ≤ m_writeIndex < capacity` (with a full-capacity backing vector) from
construction, `write` preserves the invariant (and its own store is in
bounds), and under the invariant `read(offset)` computes a final index in
`[0, capacity)` for every offset in `[-capacity, capacity)` — the single
± capacity adjustment suffices — so its buffer access always yields a
value. -/
theorem claim_C8 :
    (∀ c : Nat, 0 < c → (PrSim.SignalBuffer.init c).Inv) ∧
    (∀ (s : PrSim.SignalBuffer) (v : ℚ), s.Inv →
      ∃ s2, s.write v = some s2 ∧ s2.Inv) ∧
    (∀ (s : PrSim.SignalBuffer) (off : Int), s.Inv →
      -(s.m_capacity : Int) ≤ off → off < (s.m_capacity : Int) →
      (0 ≤ s.readIdx off ∧ s.readIdx off < (s.m_capacity : Int)) ∧
      ∃ q, s.read off = some q) :=
  ⟨PrSim.init_inv, PrSim.write_preserves_inv,
   fun s off h h1 h2 =>
    ⟨PrSim.readIdx_in_range s off h h1 h2, PrSim.read_isSome s off h h1 h2⟩⟩

/-- Witness for C8: capacity 3, one write, and a read at offset −2. -/
theorem claim_C8_witness :
    ((0 : Nat) < 3 ∧ (PrSim.SignalBuffer.init 3).Inv) ∧
    (∃ s2, (PrSim.SignalBuffer.init 3).write 1 = some s2 ∧ s2.Inv) ∧
    ((0 ≤ (PrSim.SignalBuffer.init 3).readIdx (-2) ∧
      (PrSim.SignalBuffer.init 3).readIdx (-2)
        < ((PrSim.SignalBuffer.init 3).m_capacity : Int)) ∧
     ∃ q, (PrSim.SignalBuffer.init 3).read (-2) = some q) :=
  ⟨⟨by decide, claim_C8.1 3 (by decide)⟩,
   claim_C8.2.1 (PrSim.SignalBuffer.init 3) 1 (claim_C8.1 3 (by decide)),
   claim_C8.2.2 (PrSim.SignalBuffer.init 3) (-2) (claim_C8.1 3 (by decide))
     (by decide) (by decide)⟩

/-- C9: with a nonnegative numerator strictly below the denominator, both
percentage helpers return 0, the truncating `int` division happening
before the multiplication by 100; conversely a nonzero result forces
`total ≤ n`. -/
theorem claim_C9 :
    (∀ n total : Int, 0 ≤ n → n < total →
      VerilatorStyle.VStatistics.getPercentile n total = some 0 ∧
      PrSim.SignalStats.getRangePercent n total = some 0) ∧
    (∀ n total r : Int, 0 ≤ n →
      VerilatorStyle.VStatistics.getPercentile n total = some r →
      r ≠ 0 → total ≤ n) ∧
    (∀ n total r : Int, 0 ≤ n →
      PrSim.SignalStats.getRangePercent n total = some r →
      r ≠ 0 → total ≤ n) := by
  have key : ∀ n total : Int, 0 ≤ n → n < total → Int.tdiv n total * 100 = 0 := by
    intro n total h0 h1
    rw [tdiv_eq_zero_of_nonneg_lt h0 h1, Int.zero_mul]
  refine ⟨?_, ?_, ?_⟩
  · intro n total h0 h1
    have ht : total ≠ 0 := by omega
    constructor
    · simp only [VerilatorStyle.VStatistics.getPercentile, if_neg ht,
        key n total h0 h1]
    · simp only [PrSim.SignalStats.getRangePercent, if_neg ht, key n total h0 h1]
  · intro n total r h0 hsome hr
    by_contra hnt
    push_neg at hnt
    have ht : total ≠ 0 := by omega
    simp only [VerilatorStyle.VStatistics.getPercentile, if_neg ht,
      Option.some.injEq] at hsome
    rw [key n total h0 hnt] at hsome
    exact hr hsome.symm
  · intro n total r h0 hsome hr
    by_contra hnt
    push_neg at hnt
    have ht : total ≠ 0 := by omega
    simp only [PrSim.SignalStats.getRangePercent, if_neg ht,
      Option.some.injEq] at hsome
    rw [key n total h0 hnt] at hsome
    exact hr hsome.symm

/-- Witness for C9: `getPercentile(3, 4)` and `getRangePercent(3, 4)` are
0, and `getPercentile(7, 2) = 300 ≠ 0` with `2 ≤ 7`. -/
theorem claim_C9_witness :
    ((0 : Int) ≤ 3 ∧ (3 : Int) < 4 ∧
      VerilatorStyle.VStatistics.getPercentile 3 4 = some 0 ∧
      PrSim.SignalStats.getRangePercent 3 4 = some 0) ∧
    (2 : Int) ≤ 7 :=
  ⟨⟨by decide, by decide, (claim_C9.1 3 4 (by decide) (by decide)).1,
    (claim_C9.1 3 4 (by decide) (by decide)).2⟩,
   claim_C9.2.1 7 2 300 (by decide) (by decide) (by decide)⟩

/-- C10: the fixtures demonstrate the race and the unjoined thread.  In
module_13, serializing the two 1000-increment threads of `main` ends with
the counter at 2000 (the sum of all increments), and there is an
interleaving completing both threads whose final counter differs from
2000 (a lost update leaves it at 1000); in module_3, the thread
`startServer` creates is neither joined nor detached when the function
returns. -/
theorem claim_C10 :
    ((Module13.rrun Module13.seqSched Module13.raceInit).counter = 2000 ∧
      (Module13.rrun Module13.seqSched Module13.raceInit).t1.prog = [] ∧
      (Module13.rrun Module13.seqSched Module13.raceInit).t2.prog = []) ∧
    (∃ sch : List Bool,
      (Module13.rrun sch Module13.raceInit).t1.prog = [] ∧
      (Module13.rrun sch Module13.raceInit).t2.prog = [] ∧
      (Module13.rrun sch Module13.raceInit).counter ≠ 2000) ∧
    (∀ ts : List Module3.OSThread, ∃ t : Module3.OSThread,
      Module3.startServer ts = ts ++ [t] ∧
      t.joined = false ∧ t.detached = false) := by
  refine ⟨?_, ?_, ?_⟩
  · obtain ⟨r1, h1⟩ := Module13.rrun_t1_solo 1000 0 0 ⟨Module13.incProg 1000, 0⟩
    obtain ⟨r2, h2⟩ := Module13.rrun_t2_solo 1000 (0 + 1000) 0 ⟨[], r1⟩
    have hrun : Module13.rrun Module13.seqSched Module13.raceInit
        = ⟨0 + 1000 + 1000, ⟨[], r1⟩, ⟨[], r2⟩⟩ := by
      have e1 : Module13.seqSched
          = List.replicate (2 * 1000) true ++ List.replicate (2 * 1000) false := by
        norm_num [Module13.seqSched]
      have e2 : Module13.raceInit
          = ⟨0, ⟨Module13.incProg 1000, 0⟩, ⟨Module13.incProg 1000, 0⟩⟩ := rfl
      rw [e1, Module13.rrun_append, e2, h1, h2]
    rw [hrun]
    exact ⟨by norm_num, rfl, rfl⟩
  · obtain ⟨r2, h2⟩ := Module13.rrun_t2_solo 1000 0 0
      ⟨Module13.RAct.store :: Module13.incProg 999, 0⟩
    obtain ⟨r1, h1⟩ := Module13.rrun_t1_solo 999 1 0 ⟨[], r2⟩
    refine ⟨Module13.lostUpdateSched, ?_⟩
    have hrun : Module13.rrun Module13.lostUpdateSched Module13.raceInit
        = ⟨1 + 999, ⟨[], r1⟩, ⟨[], r2⟩⟩ := by
      have e0 : Module13.lostUpdateSched
          = true :: (List.replicate 2000 false ++ true :: List.replicate 1998 true) :=
        rfl
      have estep1 : Module13.rstep Module13.raceInit true
          = ⟨0, ⟨Module13.RAct.store :: Module13.incProg 999, 0⟩,
              ⟨Module13.incProg 1000, 0⟩⟩ := rfl
      have e1 : (List.replicate 2000 false : List Bool)
          = List.replicate (2 * 1000) false := by norm_num
      rw [e0, Module13.rrun_cons, estep1, e1, Module13.rrun_append, h2,
        Module13.rrun_cons]
      have estep2 : Module13.rstep
          ⟨0 + 1000, ⟨Module13.RAct.store :: Module13.incProg 999, 0⟩, ⟨[], r2⟩⟩ true
          = ⟨1, ⟨Module13.incProg 999, 0⟩, ⟨[], r2⟩⟩ := rfl
      have e3 : (List.replicate 1998 true : List Bool)
          = List.replicate (2 * 999) true := by norm_num
      rw [estep2, e3, h1]
    rw [hrun]
    exact ⟨rfl, rfl, by norm_num⟩
  · intro ts
    exact ⟨⟨false, false⟩, rfl, rfl, rfl⟩
